import Mathlib

/-!
Verification of the zip-zap streaming ZIP library.

Bytes are modelled as natural numbers (`List Nat`); every multi-byte field
is little-endian, written modulo the field width exactly as the JS
`DataView.setUint16` / `setUint32` calls truncate.  32-bit JS bitwise
arithmetic is modelled on `Nat` with explicit `% 2 ^ 32`.
-/

namespace ZipZap

/-! ## Little-endian byte encoding primitives -/

/-- Encode a value as 2 little-endian bytes (`DataView.setUint16`,
which truncates to 16 bits). -/
def le16 (n : Nat) : List Nat :=
  [n % 256, n / 256 % 256]

/-- Encode a value as 4 little-endian bytes (`DataView.setUint32`,
which truncates to 32 bits). -/
def le32 (n : Nat) : List Nat :=
  [n % 256, n / 256 % 256, n / 2 ^ 16 % 256, n / 2 ^ 24 % 256]

/-- Read 2 little-endian bytes at index `i` (out-of-range bytes read as 0). -/
def readLe16 (v : List Nat) (i : Nat) : Nat :=
  v.getD i 0 + 256 * v.getD (i + 1) 0

/-- Read 4 little-endian bytes at index `i` (out-of-range bytes read as 0). -/
def readLe32 (v : List Nat) (i : Nat) : Nat :=
  v.getD i 0 + 256 * v.getD (i + 1) 0 + 2 ^ 16 * v.getD (i + 2) 0
    + 2 ^ 24 * v.getD (i + 3) 0

theorem le16_length (n : Nat) : (le16 n).length = 2 := rfl

theorem le32_length (n : Nat) : (le32 n).length = 4 := rfl

theorem readLe16_le16 (n : Nat) (rest : List Nat) :
    readLe16 (le16 n ++ rest) 0 = n % 2 ^ 16 := by
  show n % 256 + 256 * (n / 256 % 256) = n % 2 ^ 16
  omega

theorem readLe32_le32 (n : Nat) (rest : List Nat) :
    readLe32 (le32 n ++ rest) 0 = n % 2 ^ 32 := by
  show n % 256 + 256 * (n / 256 % 256) + 2 ^ 16 * (n / 2 ^ 16 % 256)
      + 2 ^ 24 * (n / 2 ^ 24 % 256) = n % 2 ^ 32
  omega

/-! ## CRC-32 engine (`crc32.ts`)

The source precomputes a 256-entry table from the reflected polynomial
`0xEDB88320` and updates the accumulator per byte.  JS 32-bit bitwise
operations are modelled on `Nat` working with the unsigned 32-bit
representative. -/

/-- One bit-reduction step of the table construction:
`t = (t & 1) ? (t >>> 1) ^ 0xedb88320 : t >>> 1`. -/
def crcBitStep (t : Nat) : Nat :=
  if t % 2 = 1 then (t / 2) ^^^ 0xedb88320 else t / 2

/-- Entry `i` of the CRC lookup table: eight bit-reduction steps from `i`. -/
def crcTableEntry (i : Nat) : Nat :=
  crcBitStep (crcBitStep (crcBitStep (crcBitStep
    (crcBitStep (crcBitStep (crcBitStep (crcBitStep i)))))))

/-- JS 32-bit bitwise NOT (`~x`), on the unsigned representative. -/
def not32 (x : Nat) : Nat :=
  (x % 2 ^ 32) ^^^ 0xffffffff

/-- One byte of the CRC update loop:
`x = (x >>> 8) ^ table[(x ^ b) & 0xff]`. -/
def crcByteStep (x b : Nat) : Nat :=
  (x / 256) ^^^ crcTableEntry ((x ^^^ b) % 256)

/-- `crc32(crc, data)` from `crc32.ts`: complement, per-byte table
update over the chunk, complement again. -/
def crc32 (crc : Nat) (data : List Nat) : Nat :=
  not32 (data.foldl crcByteStep (not32 crc))

theorem crcBitStep_lt (t : Nat) (h : t < 2 ^ 32) : crcBitStep t < 2 ^ 32 := by
  unfold crcBitStep
  split
  · exact Nat.xor_lt_two_pow (by omega) (by norm_num)
  · omega

theorem crcTableEntry_lt (i : Nat) (h : i < 2 ^ 32) :
    crcTableEntry i < 2 ^ 32 := by
  unfold crcTableEntry
  exact crcBitStep_lt _ (crcBitStep_lt _ (crcBitStep_lt _ (crcBitStep_lt _
    (crcBitStep_lt _ (crcBitStep_lt _ (crcBitStep_lt _ (crcBitStep_lt _ h)))))))

theorem not32_lt (x : Nat) : not32 x < 2 ^ 32 :=
  Nat.xor_lt_two_pow (Nat.mod_lt _ (by norm_num)) (by norm_num)

theorem crcByteStep_lt (x b : Nat) (h : x < 2 ^ 32) :
    crcByteStep x b < 2 ^ 32 := by
  unfold crcByteStep
  exact Nat.xor_lt_two_pow (by omega)
    (crcTableEntry_lt _ (lt_trans (Nat.mod_lt _ (by norm_num)) (by norm_num)))

theorem crc_foldl_lt (x : Nat) (data : List Nat) (h : x < 2 ^ 32) :
    data.foldl crcByteStep x < 2 ^ 32 := by
  induction data generalizing x with
  | nil => exact h
  | cons b rest ih => exact ih _ (crcByteStep_lt x b h)

theorem not32_not32 (x : Nat) (h : x < 2 ^ 32) : not32 (not32 x) = x := by
  unfold not32
  rw [Nat.mod_eq_of_lt h,
    Nat.mod_eq_of_lt (Nat.xor_lt_two_pow h (by norm_num)),
    Nat.xor_assoc, Nat.xor_self, Nat.xor_zero]

theorem crc32_lt (crc : Nat) (data : List Nat) : crc32 crc data < 2 ^ 32 :=
  not32_lt _

/-- Sequential CRC update over two chunks equals one update over their
concatenation. -/
theorem crc32_append (crc : Nat) (a b : List Nat) :
    crc32 (crc32 crc a) b = crc32 crc (a ++ b) := by
  unfold crc32
  rw [not32_not32 _ (crc_foldl_lt _ _ (not32_lt crc)), List.foldl_append]

/-! ## Write side (`write.ts`)

A write-side entry after its pipeline has fully drained.  Chunk-wise
accumulation over the stream is summarized by its totals: the
uncompressed size is the content length, the CRC is the fold of the
chunk updates (equal to one update over the whole content by
`crc32_append`), and the compressed data is the host compression
transform applied to the content (or the content itself when stored). -/

structure ZipEntryW where
  rawName : List Nat
  flags : Nat
  method : Nat
  compressedSize : Nat
  uncompressedSize : Nat
  streamSizeGuess : Nat
  crc32 : Nat
  compressedData : List Nat
deriving Repr, DecidableEq

/-- Post-drain invariant: the compressed-size counter tallied exactly the
bytes of the compressed stream. -/
def Drained (e : ZipEntryW) : Prop :=
  e.compressedSize = e.compressedData.length

instance (e : ZipEntryW) : Decidable (Drained e) := by
  unfold Drained; infer_instance

/-- The `ZipEntry` constructor plus a full drain of its pipeline:
measurement stage tallies `uncompressedSize` and the CRC, the optional
compression stage transforms the bytes, the accounting stage tallies
`compressedSize`. -/
def mkZipEntry (compress : List Nat → List Nat) (rawName content : List Nat)
    (streamSizeGuess : Nat) (compressed : Bool) : ZipEntryW :=
  let data := if compressed then compress content else content
  { rawName := rawName
    flags := 0x0800
    method := if compressed then 8 else 0
    compressedSize := data.length
    uncompressedSize := content.length
    streamSizeGuess := streamSizeGuess
    crc32 := crc32 0 content
    compressedData := data }

/-- `ZipEntry.entrySize()`. -/
def entrySize (e : ZipEntryW) : Nat :=
  30 + e.rawName.length + e.compressedSize

/-- The 30-byte local file header (`ZipEntry.entryParts` header part). -/
def localHeaderBytes (e : ZipEntryW) : List Nat :=
  le32 0x04034b50 ++ le16 0x0014 ++ le16 e.flags ++ le16 e.method ++
    le16 0 ++ le16 0 ++ le32 e.crc32 ++ le32 e.compressedSize ++
    le32 e.uncompressedSize ++ le16 e.rawName.length ++ le16 0

/-- `ZipEntry.entryParts()`: local header, raw name, compressed data. -/
def entryParts (e : ZipEntryW) : List (List Nat) :=
  [localHeaderBytes e, e.rawName, e.compressedData]

/-- The bytes an entry contributes to the archive: its parts concatenated. -/
def entryBytes (e : ZipEntryW) : List Nat :=
  localHeaderBytes e ++ e.rawName ++ e.compressedData

/-- `ZipEntry.directorySize()`. -/
def directorySize (e : ZipEntryW) : Nat :=
  46 + e.rawName.length

/-- `ZipEntry.directoryParts(entryHeaderOffset)` concatenated: the 46-byte
central directory header followed by the raw name. -/
def directoryPartsBytes (e : ZipEntryW) (entryHeaderOffset : Nat) : List Nat :=
  le32 0x02014b50 ++ le16 0x0014 ++ le16 0x0014 ++ le16 e.flags ++
    le16 e.method ++ le16 0 ++ le16 0 ++ le32 e.crc32 ++
    le32 e.compressedSize ++ le32 e.uncompressedSize ++
    le16 e.rawName.length ++ le16 0 ++ le16 0 ++ le16 0 ++ le16 0 ++
    le32 0 ++ le32 entryHeaderOffset ++ e.rawName

/-- The 22-byte end-of-central-directory record written by `build`. -/
def footerBytes (count dirSize dirOffset : Nat) : List Nat :=
  le32 0x06054b50 ++ le16 0 ++ le16 0 ++ le16 count ++ le16 count ++
    le32 dirSize ++ le32 dirOffset ++ le16 0

/-- The central directory loop of `build`: walks the entries accumulating
the running local-header `offset` and the running `directorySize`,
emitting each entry's directory record; returns the directory bytes and
the final accumulators. -/
def buildDir : List ZipEntryW → Nat → Nat → List Nat × Nat × Nat
  | [], offset, dirSize => ([], offset, dirSize)
  | e :: rest, offset, dirSize =>
    let tail := buildDir rest (offset + entrySize e) (dirSize + directorySize e)
    (directoryPartsBytes e offset ++ tail.1, tail.2)

/-- `ZipWriter.build`: all entries' parts in insertion order, then the
central directory, then the footer. -/
def build (es : List ZipEntryW) : List Nat :=
  let dir := buildDir es 0 0
  (es.map entryBytes).flatten ++ dir.1 ++ footerBytes es.length dir.2.2 dir.2.1

/-- Sum of `entrySize` over a list of entries. -/
def sumEntrySize (es : List ZipEntryW) : Nat :=
  (es.map entrySize).sum

/-- Sum of `directorySize` over a list of entries. -/
def sumDirectorySize (es : List ZipEntryW) : Nat :=
  (es.map directorySize).sum

theorem localHeaderBytes_length (e : ZipEntryW) :
    (localHeaderBytes e).length = 30 := by
  simp [localHeaderBytes, le16, le32]

theorem directoryPartsBytes_length (e : ZipEntryW) (off : Nat) :
    (directoryPartsBytes e off).length = directorySize e := by
  simp [directoryPartsBytes, le16, le32, directorySize]
  omega

theorem footerBytes_length (count dirSize dirOffset : Nat) :
    (footerBytes count dirSize dirOffset).length = 22 := by
  simp [footerBytes, le16, le32]

theorem entryBytes_length (e : ZipEntryW) (h : Drained e) :
    (entryBytes e).length = entrySize e := by
  simp [entryBytes, localHeaderBytes_length, entrySize, Drained.eq_1] at h ⊢
  omega

/-- Generalized fold: folding the CRC update from any in-range accumulator
over a list of chunks computes the CRC of the concatenation. -/
theorem crc32_foldl (crc : Nat) (h : crc < 2 ^ 32) (chunks : List (List Nat)) :
    chunks.foldl crc32 crc = crc32 crc chunks.flatten := by
  induction chunks generalizing crc with
  | nil =>
    show crc = crc32 crc []
    simp only [crc32, List.foldl_nil]
    exact (not32_not32 crc h).symm
  | cons a rest ih =>
    simp only [List.foldl_cons, List.flatten_cons, ← crc32_append,
      ih (crc32 crc a) (crc32_lt crc a)]

/-- Sanity check against the repository's snapshot test: the CRC-32 of
`"World"` is `0xfbb63e47`. -/
example : crc32 0 [87, 111, 114, 108, 100] = 0xfbb63e47 := by decide

/-- C3: for every byte sequence and every splitting of it into chunks,
starting the CRC accumulator at 0 and folding the `crc32` update over the
chunks in order yields the same result as applying the update once to the
concatenation of all chunks. -/
theorem crc32_chunked_eq_concat (chunks : List (List Nat)) :
    chunks.foldl crc32 0 = crc32 0 chunks.flatten :=
  crc32_foldl 0 (by norm_num) chunks

/-- C8: a write-side entry created with `compressed: false`, once its
pipeline has drained, has `compressedSize` equal to `uncompressedSize`,
method 0 (stored), and records method byte 0 in its local header (the
16-bit field at offset 8). -/
theorem stored_entry_sizes_eq (compress : List Nat → List Nat)
    (rawName content : List Nat) (guess : Nat) :
    (mkZipEntry compress rawName content guess false).compressedSize =
        (mkZipEntry compress rawName content guess false).uncompressedSize ∧
      (mkZipEntry compress rawName content guess false).method = 0 ∧
      readLe16 (localHeaderBytes (mkZipEntry compress rawName content guess false))
        8 = 0 := by
  refine ⟨rfl, rfl, ?_⟩
  show (0 : Nat) % 256 + 256 * (0 / 256 % 256) = 0
  norm_num

/-- C9: for a drained entry, the three parts returned by `entryParts` have
byte lengths 30 (local header), name length, and compressed-data length,
and their total equals `entrySize()` = 30 + name length + compressedSize. -/
theorem entryParts_total_length (e : ZipEntryW) (h : Drained e) :
    (entryParts e).map List.length =
        [30, e.rawName.length, e.compressedData.length] ∧
      (entryParts e).flatten.length = entrySize e := by
  constructor
  · simp [entryParts, localHeaderBytes_length]
  · simp [entryParts, localHeaderBytes_length, entrySize, Drained.eq_1] at h ⊢
    omega

/-- A concrete drained write-side entry used by witnesses. -/
def sampleEntry : ZipEntryW :=
  { rawName := [97, 46, 116, 120, 116]
    flags := 0x0800
    method := 8
    compressedSize := 3
    uncompressedSize := 2
    streamSizeGuess := 0
    crc32 := 5
    compressedData := [1, 2, 3] }

/-- Witness for C9 at a concrete drained entry. -/
theorem entryParts_total_length_witness :
    Drained sampleEntry ∧
      ((entryParts sampleEntry).map List.length =
          [30, sampleEntry.rawName.length, sampleEntry.compressedData.length] ∧
        (entryParts sampleEntry).flatten.length = entrySize sampleEntry) :=
  ⟨by decide, entryParts_total_length sampleEntry (by decide)⟩

/-! ## Progress wiring of `build` (`write.ts` lines 183–213)

`build` allocates the aggregation array `entryProgress` (one
`{bytesWritten, totalBytes}` cell per entry) only when the `progress`
option is set (`options?.progress && this.entries.map(...)`), but
installs each entry's pipeline callback whenever either option is set.
The callback first invokes the `entryProgress` option, then writes the
cell `entryProgress![index]` and recomputes the sums for the `progress`
option.  The model replays the callback per measured chunk; a JS
`TypeError` (dereferencing the missing array) is an `Except.error`. -/

structure BuildOptionsM where
  progress : Bool
  entryProgress : Bool
deriving Repr, DecidableEq

inductive ProgressEvent
  | entry (index bytesWritten totalBytes : Nat)
  | total (bytesWritten totalBytes : Nat)
deriving Repr, DecidableEq

structure ProgressCell where
  bytesWritten : Nat
  totalBytes : Nat
deriving Repr, DecidableEq

/-- `options?.progress && this.entries.map(entry => ({bytesWritten: 0,
totalBytes: entry.streamSizeGuess}))`: the aggregation array exists only
when the `progress` option is set. -/
def initCells (opts : BuildOptionsM) (guesses : List Nat) :
    Option (List ProgressCell) :=
  if opts.progress then some (guesses.map fun g => ⟨0, g⟩) else none

/-- One invocation of the callback installed by `build`: emits the
`entryProgress` event first, then dereferences the aggregation array
(throwing when it was never allocated), updates the cell, and emits the
recomputed `progress` sums.  Returns the events emitted so far together
with either the updated array or the thrown error. -/
def progressCallbackStep (opts : BuildOptionsM)
    (cells : Option (List ProgressCell))
    (index bytesWritten totalBytes : Nat) :
    List ProgressEvent × Except String (Option (List ProgressCell)) :=
  let entryEvents :=
    if opts.entryProgress then [ProgressEvent.entry index bytesWritten totalBytes]
    else []
  match cells with
  | none =>
    (entryEvents,
      .error "TypeError: cannot read properties of undefined (entryProgress)")
  | some arr =>
    let arr2 := arr.set index ⟨bytesWritten, totalBytes⟩
    let w := (arr2.map ProgressCell.bytesWritten).sum
    let t := (arr2.map ProgressCell.totalBytes).sum
    (entryEvents ++ (if opts.progress then [ProgressEvent.total w t] else []),
      .ok (some arr2))

/-- One chunk through entry `i`'s measurement stage: bump the entry's
uncompressed-size counter, compute `max(streamSizeGuess, size)`, and run
the installed callback (installed iff either option is set). -/
def measureChunk (opts : BuildOptionsM) (guesses : List Nat)
    (sizes : List Nat) (cells : Option (List ProgressCell))
    (index len : Nat) :
    List ProgressEvent × Except String (List Nat × Option (List ProgressCell)) :=
  let sizes2 := sizes.set index (sizes.getD index 0 + len)
  let bw := sizes2.getD index 0
  let tot := max (guesses.getD index 0) bw
  if opts.progress || opts.entryProgress then
    let step := progressCallbackStep opts cells index bw tot
    (step.1, step.2.map fun cells2 => (sizes2, cells2))
  else ([], .ok (sizes2, cells))

/-- Replay a whole interleaving of chunks (pairs of entry index and chunk
length) through the measurement stages, accumulating the emitted events;
an error from any callback aborts the run as it fails the entry's
pipeline and hence `build`. -/
def runBuildProgress (opts : BuildOptionsM) (guesses : List Nat) :
    List (Nat × Nat) → List Nat → Option (List ProgressCell) →
    List ProgressEvent × Except String (List Nat × Option (List ProgressCell))
  | [], sizes, cells => ([], .ok (sizes, cells))
  | c :: rest, sizes, cells =>
    match measureChunk opts guesses sizes cells c.1 c.2 with
    | (evs, .error e) => (evs, .error e)
    | (evs, .ok st) =>
      let tail := runBuildProgress opts guesses rest st.1 st.2
      (evs ++ tail.1, tail.2)

/-- Run the progress machinery of `build` from its initial state. -/
def buildProgress (opts : BuildOptionsM) (guesses : List Nat)
    (schedule : List (Nat × Nat)) :
    List ProgressEvent × Except String (List Nat × Option (List ProgressCell)) :=
  runBuildProgress opts guesses schedule (guesses.map fun _ => 0)
    (initCells opts guesses)

/-- C4 (code bug): with only the `entryProgress` option provided, the
callback installed by `build` is entered on the first chunk (it does emit
the entry event), but then dereferences the aggregation array that is
allocated only when the `progress` option is set, so the pipeline throws
and `build` does not complete normally — one entry with size guess 0
receiving a single 5-byte chunk already fails. -/
theorem buildProgress_entryProgress_only_throws :
    buildProgress ⟨false, true⟩ [0] [(0, 5)] =
      ([ProgressEvent.entry 0 5 5],
        .error "TypeError: cannot read properties of undefined (entryProgress)") :=
  rfl

/-! ## Read side (`read.ts`)

`ZipData` wraps a `Blob`; `slice(offset, size)` is `Blob.slice(offset,
offset + size)` with the Web `Blob.slice` clamping rules (negative
indices count from the end).  `DataView` reads and `Uint8Array` views
throw on out-of-range access, modelled as `Except.error`. -/

/-- Web `Blob.slice(start, stop)`: negative indices are relative to the
end, and the resulting range is clamped to the blob. -/
def blobRelStart (sz i : Int) : Int :=
  if i < 0 then max (sz + i) 0 else min i sz

def blobSlice (bs : List Nat) (start stop : Int) : List Nat :=
  (bs.drop (blobRelStart bs.length start).toNat).take
    (blobRelStart bs.length stop - blobRelStart bs.length start).toNat

/-- `ZipData.slice(offset, size) = blob.slice(offset, offset + size)`. -/
def zipDataSlice (bs : List Nat) (offset size : Int) : List Nat :=
  blobSlice bs offset (offset + size)

/-- `DataView.getUint16` (little-endian), throwing past the view's end. -/
def getUint16M (v : List Nat) (i : Nat) : Except String Nat :=
  if i + 2 ≤ v.length then .ok (readLe16 v i)
  else .error "Offset is outside the bounds of the DataView"

/-- `DataView.getUint32` (little-endian), throwing past the view's end. -/
def getUint32M (v : List Nat) (i : Nat) : Except String Nat :=
  if i + 4 ≤ v.length then .ok (readLe32 v i)
  else .error "Offset is outside the bounds of the DataView"

/-- `new Uint8Array(buffer, start, len)`: a view of `len` bytes, throwing
when the range exceeds the buffer. -/
def sliceArr (v : List Nat) (start len : Nat) : Except String (List Nat) :=
  if start + len ≤ v.length then .ok ((v.drop start).take len)
  else .error "Invalid typed array length"

structure ZipFooter where
  diskNumber : Nat
  diskStart : Nat
  diskEntries : Nat
  totalEntries : Nat
  directorySize : Nat
  directoryOffset : Nat
  commentLength : Nat
deriving Repr, DecidableEq

/-- The `ZipFooter` constructor: check the signature, then decode the
little-endian fields of the 22-byte record. -/
def ZipFooter.parse (view : List Nat) : Except String ZipFooter := do
  let sig ← getUint32M view 0
  if sig ≠ 0x06054b50 then throw "Invalid ZIP footer signature"
  let diskNumber ← getUint16M view 4
  let diskStart ← getUint16M view 6
  let diskEntries ← getUint16M view 8
  let totalEntries ← getUint16M view 10
  let directorySize ← getUint32M view 12
  let directoryOffset ← getUint32M view 16
  let commentLength ← getUint16M view 20
  pure { diskNumber, diskStart, diskEntries, totalEntries, directorySize,
         directoryOffset, commentLength }

/-- `ZipFooter.read`: view the last 22 bytes of the source
(`data.view(data.size - 22, 22)`) and parse them. -/
def ZipFooter.read (data : List Nat) : Except String ZipFooter :=
  ZipFooter.parse (zipDataSlice data ((data.length : Int) - 22) 22)

structure ZipDirectoryEntry where
  versionCreated : Nat
  versionNeeded : Nat
  flags : Nat
  compressionMethod : Nat
  dosTime : Nat
  dosDate : Nat
  crc32 : Nat
  compressedSize : Nat
  uncompressedSize : Nat
  diskNumberStart : Nat
  internalFileAttributes : Nat
  externalFileAttributes : Nat
  relativeOffset : Nat
  rawName : List Nat
  rawExtraField : List Nat
  rawComment : List Nat
deriving Repr, DecidableEq

/-- The `ZipDirectoryEntry` constructor: check the signature at `off`,
decode the fixed 46-byte header, then slice the name, extra field and
comment (in that order) from the bytes following it. -/
def ZipDirectoryEntry.parse (d : List Nat) (off : Nat) :
    Except String ZipDirectoryEntry := do
  let sig ← getUint32M d off
  if sig ≠ 0x02014b50 then throw "Invalid ZIP directory entry signature"
  let versionCreated ← getUint16M d (off + 4)
  let versionNeeded ← getUint16M d (off + 6)
  let flags ← getUint16M d (off + 8)
  let compressionMethod ← getUint16M d (off + 10)
  let dosTime ← getUint16M d (off + 12)
  let dosDate ← getUint16M d (off + 14)
  let crc32 ← getUint32M d (off + 16)
  let compressedSize ← getUint32M d (off + 20)
  let uncompressedSize ← getUint32M d (off + 24)
  let fileNameLength ← getUint16M d (off + 28)
  let extraFieldLength ← getUint16M d (off + 30)
  let fileCommentLength ← getUint16M d (off + 32)
  let diskNumberStart ← getUint16M d (off + 34)
  let internalFileAttributes ← getUint16M d (off + 36)
  let externalFileAttributes ← getUint32M d (off + 38)
  let relativeOffset ← getUint32M d (off + 42)
  let rawName ← sliceArr d (off + 46) fileNameLength
  let rawExtraField ← sliceArr d (off + 46 + fileNameLength) extraFieldLength
  let rawComment ← sliceArr d (off + 46 + fileNameLength + extraFieldLength)
    fileCommentLength
  pure { versionCreated, versionNeeded, flags, compressionMethod, dosTime,
         dosDate, crc32, compressedSize, uncompressedSize, diskNumberStart,
         internalFileAttributes, externalFileAttributes, relativeOffset,
         rawName, rawExtraField, rawComment }

/-- `ZipDirectoryEntry.isDirectory()`: last byte of the raw name is `/`
(an out-of-range lookup on an empty name yields JS `undefined`, modelled
by `getLast?` returning `none`) and the uncompressed size is 0. -/
def ZipDirectoryEntry.isDirectory (e : ZipDirectoryEntry) : Bool :=
  (e.rawName.getLast? == some 0x2f) && (e.uncompressedSize == 0)

/-- `ZipDirectoryEntry.directoryEntrySize()`. -/
def ZipDirectoryEntry.directoryEntrySize (e : ZipDirectoryEntry) : Nat :=
  46 + e.rawName.length + e.rawExtraField.length + e.rawComment.length

/-- `ZipDirectory.entries()`: repeatedly parse a directory entry at the
cursor and advance by its total record size while the cursor is inside
the directory view. -/
def entriesFromOffset (d : List Nat) (off : Nat) :
    Except String (List ZipDirectoryEntry) :=
  if _h : off < d.length then
    match ZipDirectoryEntry.parse d off with
    | .error e => .error e
    | .ok entry =>
      match entriesFromOffset d (off + entry.directoryEntrySize) with
      | .error e => .error e
      | .ok rest => .ok (entry :: rest)
  else .ok []
termination_by d.length - off
decreasing_by simp [ZipDirectoryEntry.directoryEntrySize]; omega

/-- `ZipDirectory.read`: parse the footer, then view exactly
`directorySize` bytes at `directoryOffset` as the central directory. -/
def ZipDirectory.read (data : List Nat) :
    Except String (ZipFooter × List Nat) := do
  let footer ← ZipFooter.read data
  pure (footer,
    zipDataSlice data (footer.directoryOffset : Int) (footer.directorySize : Int))

structure ZipLocalHeader where
  versionNeeded : Nat
  flags : Nat
  method : Nat
  dosTime : Nat
  dosDate : Nat
  crc32 : Nat
  compressedSize : Nat
  uncompressedSize : Nat
  fileNameLength : Nat
  extraFieldLength : Nat
deriving Repr, DecidableEq

/-- `ZipLocalHeader.fromDirectoryEntry`: copy the shared fields from a
central directory entry without touching the source bytes. -/
def ZipLocalHeader.fromDirectoryEntry (e : ZipDirectoryEntry) : ZipLocalHeader :=
  { versionNeeded := e.versionNeeded
    flags := e.flags
    method := e.compressionMethod
    dosTime := e.dosTime
    dosDate := e.dosDate
    crc32 := e.crc32
    compressedSize := e.compressedSize
    uncompressedSize := e.uncompressedSize
    fileNameLength := e.rawName.length
    extraFieldLength := e.rawExtraField.length }

structure ZipEntryR where
  header : ZipLocalHeader
  rawName : List Nat
  rawExtraField : List Nat
  compressedData : List Nat
deriving Repr, DecidableEq

/-- `ZipEntry.fromDirectoryEntry` (read side): derive the local header
from the directory entry and slice the compressed data at
`relativeOffset + 30 + nameLength + extraLength`. -/
def ZipEntryR.fromDirectoryEntry (data : List Nat) (e : ZipDirectoryEntry) :
    ZipEntryR :=
  let off := e.relativeOffset + 30 + e.rawName.length + e.rawExtraField.length
  { header := ZipLocalHeader.fromDirectoryEntry e
    rawName := e.rawName
    rawExtraField := e.rawExtraField
    compressedData := zipDataSlice data (off : Int) (e.compressedSize : Int) }

/-- `ZipEntry.uncompressedStream` (read side): the raw bytes when the
method is stored, otherwise the host decompression transform applied to
them. -/
def ZipEntryR.uncompressedContent (decompress : List Nat → List Nat)
    (e : ZipEntryR) : List Nat :=
  if e.header.method = 0 then e.compressedData
  else decompress e.compressedData

/-- `ZipReader.entries` collected into a list (the `for await` loop of the
round-trip test): footer, directory, directory entries, then each entry
resolved to its byte range. -/
def openArchive (data : List Nat) : Except String (List ZipEntryR) := do
  let dir ← ZipDirectory.read data
  let des ← entriesFromOffset dir.2 0
  pure (des.map (ZipEntryR.fromDirectoryEntry data))

/-- Collect each read entry's raw name and decoded content. -/
def readAll (decompress : List Nat → List Nat) (data : List Nat) :
    Except String (List (List Nat × List Nat)) :=
  (openArchive data).map fun es =>
    es.map fun e => (e.rawName, e.uncompressedContent decompress)

/-! ## Positional byte arithmetic -/

theorem getD_append_off (a b : List Nat) (i : Nat) :
    (a ++ b).getD (a.length + i) 0 = b.getD i 0 := by
  rw [List.getD_append_right a b 0 (a.length + i) (by omega)]
  congr 1
  omega

theorem readLe16_append_off (a b : List Nat) (i : Nat) :
    readLe16 (a ++ b) (a.length + i) = readLe16 b i := by
  unfold readLe16
  rw [getD_append_off, show a.length + i + 1 = a.length + (i + 1) by omega,
    getD_append_off]

theorem readLe32_append_off (a b : List Nat) (i : Nat) :
    readLe32 (a ++ b) (a.length + i) = readLe32 b i := by
  unfold readLe32
  rw [getD_append_off, show a.length + i + 1 = a.length + (i + 1) by omega,
    show a.length + i + 2 = a.length + (i + 2) by omega,
    show a.length + i + 3 = a.length + (i + 3) by omega,
    getD_append_off, getD_append_off, getD_append_off]

/-- `ZipData.slice` at non-negative offset and size is plain drop/take. -/
theorem zipDataSlice_nat (bs : List Nat) (off size : Nat) :
    zipDataSlice bs (off : Int) (size : Int) = (bs.drop off).take size := by
  unfold zipDataSlice blobSlice blobRelStart
  rw [if_neg (by omega), if_neg (by omega)]
  have h1 : (min (off : Int) (bs.length : Int)).toNat = min off bs.length := by
    omega
  have h2 : (min ((off : Int) + (size : Int)) (bs.length : Int) -
      min (off : Int) (bs.length : Int)).toNat =
      min (off + size) bs.length - min off bs.length := by
    omega
  rw [h1, h2]
  rcases Nat.le_total off bs.length with h | h
  · rw [Nat.min_eq_left h]
    rw [List.take_eq_take]
    simp only [List.length_drop]
    omega
  · rw [Nat.min_eq_right h]
    rw [List.drop_of_length_le h, List.drop_of_length_le (le_refl _)]
    simp

/-- The footer view: for a source of at least 22 bytes,
`data.view(data.size - 22, 22)` is exactly the last 22 bytes. -/
theorem footer_view_eq (bs : List Nat) (h : 22 ≤ bs.length) :
    zipDataSlice bs ((bs.length : Int) - 22) 22 = bs.drop (bs.length - 22) := by
  unfold zipDataSlice blobSlice blobRelStart
  rw [if_neg (by omega), if_neg (by omega)]
  have h1 : (min ((bs.length : Int) - 22) (bs.length : Int)).toNat
      = bs.length - 22 := by omega
  have h2 : (min ((bs.length : Int) - 22 + 22) (bs.length : Int) -
      min ((bs.length : Int) - 22) (bs.length : Int)).toNat = 22 := by omega
  rw [h1, h2]
  exact List.take_of_length_le (by simp only [List.length_drop]; omega)

/-- The 42 bytes of a central directory record before its offset field. -/
def dirPre (e : ZipEntryW) : List Nat :=
  le32 0x02014b50 ++ le16 0x0014 ++ le16 0x0014 ++ le16 e.flags ++
    le16 e.method ++ le16 0 ++ le16 0 ++ le32 e.crc32 ++
    le32 e.compressedSize ++ le32 e.uncompressedSize ++
    le16 e.rawName.length ++ le16 0 ++ le16 0 ++ le16 0 ++ le16 0 ++ le32 0

theorem dirPre_length (e : ZipEntryW) : (dirPre e).length = 42 := by
  simp [dirPre, le16, le32]

theorem directoryPartsBytes_decomp (e : ZipEntryW) (off : Nat) :
    directoryPartsBytes e off = dirPre e ++ (le32 off ++ e.rawName) := by
  simp [directoryPartsBytes, dirPre]

/-- The 16 bytes of the footer before its directory-offset field. -/
def footerPre (count dirSize : Nat) : List Nat :=
  le32 0x06054b50 ++ le16 0 ++ le16 0 ++ le16 count ++ le16 count ++
    le32 dirSize

theorem footerPre_length (count dirSize : Nat) :
    (footerPre count dirSize).length = 16 := by
  simp [footerPre, le16, le32]

theorem footerBytes_decomp (count dirSize dirOffset : Nat) :
    footerBytes count dirSize dirOffset =
      footerPre count dirSize ++ (le32 dirOffset ++ le16 0) := by
  simp [footerBytes, footerPre]

/-! ## Evaluating the parsers on writer-produced records -/

theorem ok_bind {ε α β : Type} (a : α) (f : α → Except ε β) :
    (Except.ok a >>= f) = f a := rfl

theorem error_bind {ε α β : Type} (m : ε) (f : α → Except ε β) :
    ((Except.error m : Except ε α) >>= f) = Except.error m := rfl

theorem throw_eq {α : Type} (m : String) :
    (throw m : Except String α) = Except.error m := rfl

theorem except_pure_eq {ε α : Type} (x : α) :
    (pure x : Except ε α) = .ok x := rfl

theorem except_map_ok {ε α β : Type} (f : α → β) (x : α) :
    Except.map f (Except.ok x : Except ε α) = .ok (f x) := rfl

theorem getUint16M_of_le (v : List Nat) (i : Nat) (h : i + 2 ≤ v.length) :
    getUint16M v i = .ok (readLe16 v i) := by
  unfold getUint16M
  rw [if_pos h]

theorem getUint32M_of_le (v : List Nat) (i : Nat) (h : i + 4 ≤ v.length) :
    getUint32M v i = .ok (readLe32 v i) := by
  unfold getUint32M
  rw [if_pos h]

theorem sliceArr_of_le (v : List Nat) (start len : Nat)
    (h : start + len ≤ v.length) :
    sliceArr v start len = .ok ((v.drop start).take len) := by
  unfold sliceArr
  rw [if_pos h]

/-- The central directory entry that parsing a writer-produced directory
record recovers (fields truncated exactly as the 16/32-bit stores do). -/
def dirEntryModel (e : ZipEntryW) (off : Nat) : ZipDirectoryEntry :=
  { versionCreated := 0x14
    versionNeeded := 0x14
    flags := e.flags % 2 ^ 16
    compressionMethod := e.method % 2 ^ 16
    dosTime := 0
    dosDate := 0
    crc32 := e.crc32 % 2 ^ 32
    compressedSize := e.compressedSize % 2 ^ 32
    uncompressedSize := e.uncompressedSize % 2 ^ 32
    diskNumberStart := 0
    internalFileAttributes := 0
    externalFileAttributes := 0
    relativeOffset := off % 2 ^ 32
    rawName := e.rawName
    rawExtraField := []
    rawComment := [] }

/-- The directory record written out byte by byte. -/
def dirRecordFlat (e : ZipEntryW) (off : Nat) : List Nat :=
  0x50 :: 0x4b :: 0x01 :: 0x02 ::
  0x14 :: 0x00 :: 0x14 :: 0x00 ::
  (e.flags % 256) :: (e.flags / 256 % 256) ::
  (e.method % 256) :: (e.method / 256 % 256) ::
  0 :: 0 :: 0 :: 0 ::
  (e.crc32 % 256) :: (e.crc32 / 256 % 256) ::
  (e.crc32 / 2 ^ 16 % 256) :: (e.crc32 / 2 ^ 24 % 256) ::
  (e.compressedSize % 256) :: (e.compressedSize / 256 % 256) ::
  (e.compressedSize / 2 ^ 16 % 256) :: (e.compressedSize / 2 ^ 24 % 256) ::
  (e.uncompressedSize % 256) :: (e.uncompressedSize / 256 % 256) ::
  (e.uncompressedSize / 2 ^ 16 % 256) :: (e.uncompressedSize / 2 ^ 24 % 256) ::
  (e.rawName.length % 256) :: (e.rawName.length / 256 % 256) ::
  0 :: 0 :: 0 :: 0 :: 0 :: 0 :: 0 :: 0 ::
  0 :: 0 :: 0 :: 0 ::
  (off % 256) :: (off / 256 % 256) ::
  (off / 2 ^ 16 % 256) :: (off / 2 ^ 24 % 256) ::
  e.rawName

theorem directoryPartsBytes_flat (e : ZipEntryW) (off : Nat) :
    directoryPartsBytes e off = dirRecordFlat e off := by
  simp [directoryPartsBytes, dirRecordFlat, le16, le32]

theorem dirRecordFlat_append_length (e : ZipEntryW) (off : Nat)
    (rest : List Nat) :
    (dirRecordFlat e off ++ rest).length =
      46 + e.rawName.length + rest.length := by
  simp [dirRecordFlat]
  omega

/-- The footer record written out byte by byte. -/
def footerFlat (count dirSize dirOffset : Nat) : List Nat :=
  [0x50, 0x4b, 0x05, 0x06,
   0, 0, 0, 0,
   count % 256, count / 256 % 256,
   count % 256, count / 256 % 256,
   dirSize % 256, dirSize / 256 % 256,
   dirSize / 2 ^ 16 % 256, dirSize / 2 ^ 24 % 256,
   dirOffset % 256, dirOffset / 256 % 256,
   dirOffset / 2 ^ 16 % 256, dirOffset / 2 ^ 24 % 256,
   0, 0]

theorem footerBytes_flat (count dirSize dirOffset : Nat) :
    footerBytes count dirSize dirOffset = footerFlat count dirSize dirOffset := by
  simp [footerBytes, footerFlat, le16, le32]

theorem footerFlat_length (count dirSize dirOffset : Nat) :
    (footerFlat count dirSize dirOffset).length = 22 := rfl

/-- Parsing the footer of the writer yields its fields (counts truncated
to 16 bits, sizes and offsets to 32 bits). -/
theorem parse_footer_bytes (count dirSize dirOffset : Nat) :
    ZipFooter.parse (footerBytes count dirSize dirOffset) =
      .ok { diskNumber := 0, diskStart := 0, diskEntries := count % 2 ^ 16,
            totalEntries := count % 2 ^ 16, directorySize := dirSize % 2 ^ 32,
            directoryOffset := dirOffset % 2 ^ 32, commentLength := 0 } := by
  rw [footerBytes_flat]
  have g0 : getUint32M (footerFlat count dirSize dirOffset) 0 =
      .ok 0x06054b50 := by
    rw [getUint32M_of_le _ _ (by rw [footerFlat_length]; try omega)]
    try norm_num [readLe32, footerFlat, List.getD_cons_zero, List.getD_cons_succ]
  have g4 : getUint16M (footerFlat count dirSize dirOffset) 4 = .ok 0 := by
    rw [getUint16M_of_le _ _ (by rw [footerFlat_length]; try omega)]
    try norm_num [readLe16, footerFlat, List.getD_cons_zero, List.getD_cons_succ]
  have g6 : getUint16M (footerFlat count dirSize dirOffset) 6 = .ok 0 := by
    rw [getUint16M_of_le _ _ (by rw [footerFlat_length]; try omega)]
    try norm_num [readLe16, footerFlat, List.getD_cons_zero, List.getD_cons_succ]
  have g8 : getUint16M (footerFlat count dirSize dirOffset) 8 =
      .ok (count % 256 + 256 * (count / 256 % 256)) := by
    rw [getUint16M_of_le _ _ (by rw [footerFlat_length]; try omega)]
    try norm_num [readLe16, footerFlat, List.getD_cons_zero, List.getD_cons_succ]
  have g10 : getUint16M (footerFlat count dirSize dirOffset) 10 =
      .ok (count % 256 + 256 * (count / 256 % 256)) := by
    rw [getUint16M_of_le _ _ (by rw [footerFlat_length]; try omega)]
    try norm_num [readLe16, footerFlat, List.getD_cons_zero, List.getD_cons_succ]
  have g12 : getUint32M (footerFlat count dirSize dirOffset) 12 =
      .ok (dirSize % 256 + 256 * (dirSize / 256 % 256)
        + 2 ^ 16 * (dirSize / 2 ^ 16 % 256)
        + 2 ^ 24 * (dirSize / 2 ^ 24 % 256)) := by
    rw [getUint32M_of_le _ _ (by rw [footerFlat_length]; try omega)]
    try norm_num [readLe32, footerFlat, List.getD_cons_zero, List.getD_cons_succ]
  have g16 : getUint32M (footerFlat count dirSize dirOffset) 16 =
      .ok (dirOffset % 256 + 256 * (dirOffset / 256 % 256)
        + 2 ^ 16 * (dirOffset / 2 ^ 16 % 256)
        + 2 ^ 24 * (dirOffset / 2 ^ 24 % 256)) := by
    rw [getUint32M_of_le _ _ (by rw [footerFlat_length]; try omega)]
    try norm_num [readLe32, footerFlat, List.getD_cons_zero, List.getD_cons_succ]
  have g20 : getUint16M (footerFlat count dirSize dirOffset) 20 = .ok 0 := by
    rw [getUint16M_of_le _ _ (by rw [footerFlat_length]; try omega)]
    try norm_num [readLe16, footerFlat, List.getD_cons_zero, List.getD_cons_succ]
  unfold ZipFooter.parse
  rw [g0, ok_bind, if_neg (by norm_num), except_pure_eq, ok_bind, g4, ok_bind,
    g6, ok_bind, g8, ok_bind, g10, ok_bind, g12, ok_bind, g16, ok_bind,
    g20, ok_bind, except_pure_eq]
  simp only [Except.ok.injEq, ZipFooter.mk.injEq]
  refine ⟨trivial, trivial, by omega, by omega, by omega, by omega, trivial⟩

/-- Parsing a writer-produced central directory record (with anything
appended after it) yields exactly the model entry. -/
theorem parse_dir_record (e : ZipEntryW) (off : Nat) (rest : List Nat)
    (hname : e.rawName.length < 2 ^ 16) :
    ZipDirectoryEntry.parse (directoryPartsBytes e off ++ rest) 0 =
      .ok (dirEntryModel e off) := by
  rw [directoryPartsBytes_flat]
  have g0 : getUint32M (dirRecordFlat e off ++ rest) 0 =
      .ok (0x02014b50) := by
    rw [getUint32M_of_le _ _ (by rw [dirRecordFlat_append_length]; try omega)]
    try norm_num [readLe32, dirRecordFlat, List.cons_append, List.getD_cons_zero, List.getD_cons_succ]
  have g4 : getUint16M (dirRecordFlat e off ++ rest) 4 =
      .ok (0x14) := by
    rw [getUint16M_of_le _ _ (by rw [dirRecordFlat_append_length]; try omega)]
    try norm_num [readLe16, dirRecordFlat, List.cons_append, List.getD_cons_zero, List.getD_cons_succ]
  have g6 : getUint16M (dirRecordFlat e off ++ rest) 6 =
      .ok (0x14) := by
    rw [getUint16M_of_le _ _ (by rw [dirRecordFlat_append_length]; try omega)]
    try norm_num [readLe16, dirRecordFlat, List.cons_append, List.getD_cons_zero, List.getD_cons_succ]
  have g8 : getUint16M (dirRecordFlat e off ++ rest) 8 =
      .ok (e.flags % 256 + 256 * (e.flags / 256 % 256)) := by
    rw [getUint16M_of_le _ _ (by rw [dirRecordFlat_append_length]; try omega)]
    try norm_num [readLe16, dirRecordFlat, List.cons_append, List.getD_cons_zero, List.getD_cons_succ]
  have g10 : getUint16M (dirRecordFlat e off ++ rest) 10 =
      .ok (e.method % 256 + 256 * (e.method / 256 % 256)) := by
    rw [getUint16M_of_le _ _ (by rw [dirRecordFlat_append_length]; try omega)]
    try norm_num [readLe16, dirRecordFlat, List.cons_append, List.getD_cons_zero, List.getD_cons_succ]
  have g12 : getUint16M (dirRecordFlat e off ++ rest) 12 =
      .ok (0) := by
    rw [getUint16M_of_le _ _ (by rw [dirRecordFlat_append_length]; try omega)]
    try norm_num [readLe16, dirRecordFlat, List.cons_append, List.getD_cons_zero, List.getD_cons_succ]
  have g14 : getUint16M (dirRecordFlat e off ++ rest) 14 =
      .ok (0) := by
    rw [getUint16M_of_le _ _ (by rw [dirRecordFlat_append_length]; try omega)]
    try norm_num [readLe16, dirRecordFlat, List.cons_append, List.getD_cons_zero, List.getD_cons_succ]
  have g16 : getUint32M (dirRecordFlat e off ++ rest) 16 =
      .ok (e.crc32 % 256 + 256 * (e.crc32 / 256 % 256)
        + 2 ^ 16 * (e.crc32 / 2 ^ 16 % 256) + 2 ^ 24 * (e.crc32 / 2 ^ 24 % 256)) := by
    rw [getUint32M_of_le _ _ (by rw [dirRecordFlat_append_length]; try omega)]
    try norm_num [readLe32, dirRecordFlat, List.cons_append, List.getD_cons_zero, List.getD_cons_succ]
  have g20 : getUint32M (dirRecordFlat e off ++ rest) 20 =
      .ok (e.compressedSize % 256 + 256 * (e.compressedSize / 256 % 256)
        + 2 ^ 16 * (e.compressedSize / 2 ^ 16 % 256) + 2 ^ 24 * (e.compressedSize / 2 ^ 24 % 256)) := by
    rw [getUint32M_of_le _ _ (by rw [dirRecordFlat_append_length]; try omega)]
    try norm_num [readLe32, dirRecordFlat, List.cons_append, List.getD_cons_zero, List.getD_cons_succ]
  have g24 : getUint32M (dirRecordFlat e off ++ rest) 24 =
      .ok (e.uncompressedSize % 256 + 256 * (e.uncompressedSize / 256 % 256)
        + 2 ^ 16 * (e.uncompressedSize / 2 ^ 16 % 256) + 2 ^ 24 * (e.uncompressedSize / 2 ^ 24 % 256)) := by
    rw [getUint32M_of_le _ _ (by rw [dirRecordFlat_append_length]; try omega)]
    try norm_num [readLe32, dirRecordFlat, List.cons_append, List.getD_cons_zero, List.getD_cons_succ]
  have g28 : getUint16M (dirRecordFlat e off ++ rest) 28 =
      .ok (e.rawName.length) := by
    rw [getUint16M_of_le _ _ (by rw [dirRecordFlat_append_length]; try omega)]
    try norm_num [readLe16, dirRecordFlat, List.cons_append, List.getD_cons_zero, List.getD_cons_succ]
    omega
  have g30 : getUint16M (dirRecordFlat e off ++ rest) 30 =
      .ok (0) := by
    rw [getUint16M_of_le _ _ (by rw [dirRecordFlat_append_length]; try omega)]
    try norm_num [readLe16, dirRecordFlat, List.cons_append, List.getD_cons_zero, List.getD_cons_succ]
  have g32 : getUint16M (dirRecordFlat e off ++ rest) 32 =
      .ok (0) := by
    rw [getUint16M_of_le _ _ (by rw [dirRecordFlat_append_length]; try omega)]
    try norm_num [readLe16, dirRecordFlat, List.cons_append, List.getD_cons_zero, List.getD_cons_succ]
  have g34 : getUint16M (dirRecordFlat e off ++ rest) 34 =
      .ok (0) := by
    rw [getUint16M_of_le _ _ (by rw [dirRecordFlat_append_length]; try omega)]
    try norm_num [readLe16, dirRecordFlat, List.cons_append, List.getD_cons_zero, List.getD_cons_succ]
  have g36 : getUint16M (dirRecordFlat e off ++ rest) 36 =
      .ok (0) := by
    rw [getUint16M_of_le _ _ (by rw [dirRecordFlat_append_length]; try omega)]
    try norm_num [readLe16, dirRecordFlat, List.cons_append, List.getD_cons_zero, List.getD_cons_succ]
  have g38 : getUint32M (dirRecordFlat e off ++ rest) 38 =
      .ok (0) := by
    rw [getUint32M_of_le _ _ (by rw [dirRecordFlat_append_length]; try omega)]
    try norm_num [readLe32, dirRecordFlat, List.cons_append, List.getD_cons_zero, List.getD_cons_succ]
  have g42 : getUint32M (dirRecordFlat e off ++ rest) 42 =
      .ok (off % 256 + 256 * (off / 256 % 256)
        + 2 ^ 16 * (off / 2 ^ 16 % 256) + 2 ^ 24 * (off / 2 ^ 24 % 256)) := by
    rw [getUint32M_of_le _ _ (by rw [dirRecordFlat_append_length]; try omega)]
    try norm_num [readLe32, dirRecordFlat, List.cons_append, List.getD_cons_zero, List.getD_cons_succ]
  have s46 : sliceArr (dirRecordFlat e off ++ rest) 46 e.rawName.length = .ok e.rawName := by
    rw [sliceArr_of_le _ _ _ (by rw [dirRecordFlat_append_length]; try omega)]
    norm_num [dirRecordFlat, List.cons_append, List.drop_succ_cons,
      List.take_left]
  have sx : sliceArr (dirRecordFlat e off ++ rest) (46 + e.rawName.length) 0 = .ok [] := by
    rw [sliceArr_of_le _ _ _ (by rw [dirRecordFlat_append_length]; try omega)]
    simp
  have sc : sliceArr (dirRecordFlat e off ++ rest) (46 + e.rawName.length + 0) 0 = .ok [] := by
    rw [sliceArr_of_le _ _ _ (by rw [dirRecordFlat_append_length]; try omega)]
    simp
  unfold ZipDirectoryEntry.parse
  simp only [Nat.zero_add]
  rw [g0, ok_bind, if_neg (by norm_num), except_pure_eq, ok_bind, g4, ok_bind,
    g6, ok_bind, g8, ok_bind, g10, ok_bind, g12, ok_bind, g14, ok_bind,
    g16, ok_bind, g20, ok_bind, g24, ok_bind, g28, ok_bind, g30, ok_bind,
    g32, ok_bind, g34, ok_bind, g36, ok_bind, g38, ok_bind, g42, ok_bind,
    s46, ok_bind, sx, ok_bind, sc, ok_bind, except_pure_eq]
  simp only [Except.ok.injEq, ZipDirectoryEntry.mk.injEq, dirEntryModel]
  refine ⟨trivial, trivial, by omega, by omega, trivial, trivial, by omega,
    by omega, by omega, trivial, trivial, trivial, by omega, trivial,
    trivial, trivial⟩

/-! ## Iterating the central directory -/

theorem getD_drop (d : List Nat) (off k : Nat) :
    (d.drop off).getD k 0 = d.getD (off + k) 0 := by
  simp only [List.getD, List.get?_drop]

theorem getUint16M_drop (d : List Nat) (off k : Nat) :
    getUint16M (d.drop off) k = getUint16M d (off + k) := by
  unfold getUint16M
  rw [List.length_drop]
  have h1 : k + 2 ≤ d.length - off ↔ off + k + 2 ≤ d.length := by omega
  simp only [readLe16, getD_drop, show off + (k + 1) = off + k + 1 by omega]
  rcases Classical.em (off + k + 2 ≤ d.length) with h | h
  · rw [if_pos (h1.mpr h), if_pos h]
  · rw [if_neg (fun hc => h (h1.mp hc)), if_neg h]

theorem getUint32M_drop (d : List Nat) (off k : Nat) :
    getUint32M (d.drop off) k = getUint32M d (off + k) := by
  unfold getUint32M
  rw [List.length_drop]
  have h1 : k + 4 ≤ d.length - off ↔ off + k + 4 ≤ d.length := by omega
  simp only [readLe32, getD_drop, show off + (k + 1) = off + k + 1 by omega,
    show off + (k + 2) = off + k + 2 by omega,
    show off + (k + 3) = off + k + 3 by omega]
  rcases Classical.em (off + k + 4 ≤ d.length) with h | h
  · rw [if_pos (h1.mpr h), if_pos h]
  · rw [if_neg (fun hc => h (h1.mp hc)), if_neg h]

theorem sliceArr_drop (d : List Nat) (off start len : Nat) (hs : 0 < start) :
    sliceArr (d.drop off) start len = sliceArr d (off + start) len := by
  unfold sliceArr
  rw [List.length_drop, List.drop_drop]
  have h1 : start + len ≤ d.length - off ↔ off + start + len ≤ d.length := by
    omega
  rcases Classical.em (off + start + len ≤ d.length) with h | h
  · rw [if_pos (h1.mpr h), if_pos h]
  · rw [if_neg (fun hc => h (h1.mp hc)), if_neg h]

/-- Parsing a directory entry at `off` only depends on the bytes from
`off` on. -/
theorem parse_dir_shift (d : List Nat) (off j : Nat) :
    ZipDirectoryEntry.parse (d.drop off) j = ZipDirectoryEntry.parse d (off + j) := by
  unfold ZipDirectoryEntry.parse
  simp (disch := omega) only [getUint16M_drop, getUint32M_drop, sliceArr_drop,
    Nat.add_assoc]

/-- The directory iteration started at a shifted cursor equals iteration
over the dropped view: the loop reads nothing before the cursor. -/
theorem entriesFromOffset_shift (n : Nat) : ∀ (d : List Nat) (off j : Nat),
    d.length - (off + j) ≤ n →
    entriesFromOffset (d.drop off) j = entriesFromOffset d (off + j) := by
  induction n with
  | zero =>
    intro d off j hn
    rw [entriesFromOffset, entriesFromOffset]
    rw [dif_neg (by simp only [List.length_drop]; omega),
      dif_neg (by omega)]
  | succ n ih =>
    intro d off j hn
    rw [entriesFromOffset, entriesFromOffset]
    rcases Nat.lt_or_ge (off + j) d.length with h | h
    · rw [dif_pos (by simp only [List.length_drop]; omega), dif_pos h,
        parse_dir_shift]
      cases hp : ZipDirectoryEntry.parse d (off + j) with
      | error m => rfl
      | ok entry =>
        dsimp only
        have hsz : 46 ≤ entry.directoryEntrySize := by
          simp only [ZipDirectoryEntry.directoryEntrySize]
          omega
        have hrec := ih d off (j + entry.directoryEntrySize) (by omega)
        rw [show off + (j + entry.directoryEntrySize) =
            off + j + entry.directoryEntrySize by omega] at hrec
        rw [hrec]
    · rw [dif_neg (by simp only [List.length_drop]; omega), dif_neg (by omega)]

theorem entriesFromOffset_drop (d : List Nat) (s : Nat) :
    entriesFromOffset d s = entriesFromOffset (d.drop s) 0 := by
  have h := entriesFromOffset_shift d.length d s 0 (by omega)
  rw [h, Nat.add_zero]

/-- The directory section of `build`: each record at its accumulated
local-header offset. -/
def dirConcat : List ZipEntryW → Nat → List Nat
  | [], _ => []
  | e :: rest, off => directoryPartsBytes e off ++ dirConcat rest (off + entrySize e)

/-- The parsed form of the directory section. -/
def dirModels : List ZipEntryW → Nat → List ZipDirectoryEntry
  | [], _ => []
  | e :: rest, off => dirEntryModel e off :: dirModels rest (off + entrySize e)

theorem buildDir_fst (es : List ZipEntryW) (off ds : Nat) :
    (buildDir es off ds).1 = dirConcat es off := by
  induction es generalizing off ds with
  | nil => rfl
  | cons e rest ih => simp [buildDir, dirConcat, ih]

theorem buildDir_snd (es : List ZipEntryW) (off ds : Nat) :
    (buildDir es off ds).2 =
      (off + sumEntrySize es, ds + sumDirectorySize es) := by
  induction es generalizing off ds with
  | nil => simp [buildDir, sumEntrySize, sumDirectorySize]
  | cons e rest ih =>
    simp [buildDir, sumEntrySize, sumDirectorySize, ih, List.map_cons,
      List.sum_cons]
    all_goals constructor <;> omega

theorem dirConcat_length (es : List ZipEntryW) (off : Nat) :
    (dirConcat es off).length = sumDirectorySize es := by
  induction es generalizing off with
  | nil => rfl
  | cons e rest ih =>
    simp [dirConcat, directoryPartsBytes_length, sumDirectorySize,
      List.map_cons, List.sum_cons, ih, directorySize]
    all_goals omega

/-- Iterating the central directory produced by the writer parses back
exactly the model entries, one per written entry, in order. -/
theorem entriesFromOffset_dirConcat (es : List ZipEntryW) (off0 : Nat)
    (hn : ∀ e ∈ es, e.rawName.length < 2 ^ 16) :
    entriesFromOffset (dirConcat es off0) 0 = .ok (dirModels es off0) := by
  induction es generalizing off0 with
  | nil =>
    rw [entriesFromOffset]
    rw [dif_neg (by simp [dirConcat])]
    rfl
  | cons e rest ih =>
    have hlen : (dirConcat (e :: rest) off0).length =
        46 + e.rawName.length + (dirConcat rest (off0 + entrySize e)).length := by
      simp [dirConcat, directoryPartsBytes_length, directorySize]
      all_goals omega
    rw [entriesFromOffset]
    rw [dif_pos (by omega)]
    rw [show dirConcat (e :: rest) off0 =
        directoryPartsBytes e off0 ++ dirConcat rest (off0 + entrySize e)
      from rfl]
    rw [parse_dir_record e off0 _ (hn e (by simp))]
    dsimp only
    have hsz : (dirEntryModel e off0).directoryEntrySize =
        (directoryPartsBytes e off0).length := by
      simp [ZipDirectoryEntry.directoryEntrySize, dirEntryModel,
        directoryPartsBytes_length, directorySize]
    rw [show (0 : Nat) + (dirEntryModel e off0).directoryEntrySize =
        (dirEntryModel e off0).directoryEntrySize by omega]
    rw [hsz, entriesFromOffset_drop, List.drop_left]
    rw [ih (off0 + entrySize e) (fun x hx => hn x (by simp [hx]))]
    rfl

/-! ## Offsets and layout of the built archive -/

theorem sumEntrySize_cons (e : ZipEntryW) (rest : List ZipEntryW) :
    sumEntrySize (e :: rest) = entrySize e + sumEntrySize rest := by
  simp [sumEntrySize]

theorem sumDirectorySize_cons (e : ZipEntryW) (rest : List ZipEntryW) :
    sumDirectorySize (e :: rest) = directorySize e + sumDirectorySize rest := by
  simp [sumDirectorySize]

theorem sumEntrySize_take_le (es : List ZipEntryW) (k : Nat) :
    sumEntrySize (es.take k) ≤ sumEntrySize es := by
  calc sumEntrySize (es.take k)
      ≤ sumEntrySize (es.take k) + sumEntrySize (es.drop k) :=
        Nat.le_add_right _ _
    _ = sumEntrySize (es.take k ++ es.drop k) := by
        simp [sumEntrySize]
    _ = sumEntrySize es := by rw [List.take_append_drop]

theorem entryBytesFlatten_length (es : List ZipEntryW)
    (hd : ∀ e ∈ es, Drained e) :
    ((es.map entryBytes).flatten).length = sumEntrySize es := by
  induction es with
  | nil => rfl
  | cons e rest ih =>
    simp only [List.map_cons, List.flatten_cons, List.length_append,
      sumEntrySize_cons, entryBytes_length e (hd e (by simp)),
      ih (fun x hx => hd x (by simp [hx]))]

theorem drop_append_off : ∀ (a b : List Nat) (i : Nat),
    (a ++ b).drop (a.length + i) = b.drop i
  | [], b, i => by simp
  | x :: a, b, i => by
    rw [show (x :: a).length + i = a.length + i + 1 by
      simp only [List.length_cons]; omega]
    rw [List.cons_append, List.drop_succ_cons, drop_append_off a b i]

/-- The bytes of the archive from entry k's local-header offset start with
entry k's bytes. -/
theorem flatten_drop_entry : ∀ (es : List ZipEntryW),
    (∀ e ∈ es, Drained e) → ∀ (k : Nat) (hk : k < es.length) (tail : List Nat),
    ((es.map entryBytes).flatten ++ tail).drop (sumEntrySize (es.take k)) =
      entryBytes (es.get ⟨k, hk⟩) ++
        (((es.drop (k + 1)).map entryBytes).flatten ++ tail)
  | [], _, k, hk, _ => absurd hk (by simp)
  | e :: rest, hd, 0, _, tail => by
    simp [sumEntrySize, List.append_assoc]
  | e :: rest, hd, k + 1, hk, tail => by
    have ih := flatten_drop_entry rest (fun x hx => hd x (by simp [hx])) k
      (by simpa using hk) tail
    simp only [List.take_succ_cons, sumEntrySize_cons, List.map_cons,
      List.flatten_cons, List.append_assoc, List.drop_succ_cons,
      List.get_cons_succ]
    rw [show entrySize e + sumEntrySize (rest.take k) =
        (entryBytes e).length + sumEntrySize (rest.take k) by
      rw [entryBytes_length e (hd e (by simp))]]
    rw [drop_append_off]
    simpa [List.append_assoc] using ih

/-- The offset field (at byte 42) of directory record k holds the
accumulated local-header offset. -/
theorem dirConcat_read_offset : ∀ (es : List ZipEntryW) (off0 : Nat) (k : Nat),
    k < es.length → ∀ (tail : List Nat),
    readLe32 (dirConcat es off0 ++ tail)
        (sumDirectorySize (es.take k) + 42) =
      (off0 + sumEntrySize (es.take k)) % 2 ^ 32
  | [], _, k, hk, _ => absurd hk (by simp)
  | e :: rest, off0, 0, _, tail => by
    simp only [List.take_zero, sumDirectorySize, List.map_nil, List.sum_nil,
      Nat.zero_add, sumEntrySize, Nat.add_zero]
    rw [show dirConcat (e :: rest) off0 ++ tail =
        dirPre e ++ (le32 off0 ++ (e.rawName ++
          (dirConcat rest (off0 + entrySize e) ++ tail))) by
      simp [dirConcat, directoryPartsBytes_decomp, List.append_assoc]]
    rw [show (42 : Nat) = (dirPre e).length + 0 by rw [dirPre_length]]
    rw [readLe32_append_off, readLe32_le32]
  | e :: rest, off0, k + 1, hk, tail => by
    have ih := dirConcat_read_offset rest (off0 + entrySize e) k
      (by simpa using hk) tail
    simp only [List.take_succ_cons, sumDirectorySize_cons, sumEntrySize_cons]
    rw [show dirConcat (e :: rest) off0 ++ tail =
        directoryPartsBytes e off0 ++
          (dirConcat rest (off0 + entrySize e) ++ tail) by
      simp [dirConcat, List.append_assoc]]
    rw [show directorySize e + sumDirectorySize (rest.take k) + 42 =
        (directoryPartsBytes e off0).length +
          (sumDirectorySize (rest.take k) + 42) by
      rw [directoryPartsBytes_length]; omega]
    rw [readLe32_append_off, ih]
    congr 1
    omega

/-- The directory-offset field of the footer (at byte 16). -/
theorem footer_read_offset (count dirSize dirOffset : Nat) :
    readLe32 (footerBytes count dirSize dirOffset) 16 = dirOffset % 2 ^ 32 := by
  rw [footerBytes_decomp]
  rw [show (16 : Nat) = (footerPre count dirSize).length + 0 by
    rw [footerPre_length]]
  rw [readLe32_append_off]
  rw [show le32 dirOffset ++ le16 0 = le32 dirOffset ++ le16 0 from rfl]
  exact readLe32_le32 dirOffset (le16 0)

/-- `build` laid out as entry bytes, directory section, footer. -/
theorem build_decomp (es : List ZipEntryW) :
    build es = (es.map entryBytes).flatten ++
      (dirConcat es 0 ++
        footerBytes es.length (sumDirectorySize es) (sumEntrySize es)) := by
  simp [build, buildDir_fst, buildDir_snd, List.append_assoc]

/-- C1: for a `ZipWriter` whose entries have all drained (and whose total
entry bytes fit the 32-bit offset fields), the archive produced by `build`
lays the entry parts out in insertion order — the bytes at offset
Σ entrySize(i<k) are exactly entry k's local header, name and data —
while entry k's central directory record stores Σ entrySize(i<k) as its
local-header offset field and the footer stores Σ entrySize(all) as the
central directory offset. -/
theorem build_offset_invariant (es : List ZipEntryW)
    (hd : ∀ e ∈ es, Drained e) (h32 : sumEntrySize es < 2 ^ 32)
    (k : Nat) (hk : k < es.length) :
    ((build es).drop (sumEntrySize (es.take k))).take
        (entrySize (es.get ⟨k, hk⟩)) = entryBytes (es.get ⟨k, hk⟩) ∧
      readLe32 (build es)
          (sumEntrySize es + (sumDirectorySize (es.take k) + 42)) =
        sumEntrySize (es.take k) ∧
      readLe32 (build es)
          (sumEntrySize es + sumDirectorySize es + 16) = sumEntrySize es := by
  have hEB : ((es.map entryBytes).flatten).length = sumEntrySize es :=
    entryBytesFlatten_length es hd
  refine ⟨?_, ?_, ?_⟩
  · rw [build_decomp, flatten_drop_entry es hd k hk]
    rw [show entrySize (es.get ⟨k, hk⟩) =
        (entryBytes (es.get ⟨k, hk⟩)).length from
      (entryBytes_length _ (hd _ (es.get_mem k hk))).symm]
    exact List.take_left _ _
  · rw [build_decomp]
    rw [show sumEntrySize es + (sumDirectorySize (es.take k) + 42) =
        ((es.map entryBytes).flatten).length +
          (sumDirectorySize (es.take k) + 42) by rw [hEB]]
    rw [readLe32_append_off, dirConcat_read_offset es 0 k hk]
    rw [Nat.zero_add, Nat.mod_eq_of_lt
      (Nat.lt_of_le_of_lt (sumEntrySize_take_le es k) h32)]
  · rw [build_decomp, ← List.append_assoc]
    rw [show sumEntrySize es + sumDirectorySize es + 16 =
        ((es.map entryBytes).flatten ++ dirConcat es 0).length + 16 by
      rw [List.length_append, hEB, dirConcat_length]]
    rw [readLe32_append_off, footer_read_offset, Nat.mod_eq_of_lt h32]

/-- A second concrete drained entry (stored, empty content). -/
def sampleEntry2 : ZipEntryW :=
  { rawName := [98]
    flags := 0x0800
    method := 0
    compressedSize := 0
    uncompressedSize := 0
    streamSizeGuess := 0
    crc32 := 0
    compressedData := [] }

/-- Witness for C1 on a concrete two-entry archive at k = 1. -/
theorem build_offset_invariant_witness :
    ((∀ e ∈ [sampleEntry, sampleEntry2], Drained e) ∧
      sumEntrySize [sampleEntry, sampleEntry2] < 2 ^ 32 ∧
      1 < ([sampleEntry, sampleEntry2] : List ZipEntryW).length) ∧
    (((build [sampleEntry, sampleEntry2]).drop
          (sumEntrySize ([sampleEntry, sampleEntry2].take 1))).take
        (entrySize ([sampleEntry, sampleEntry2].get ⟨1, by decide⟩)) =
        entryBytes ([sampleEntry, sampleEntry2].get ⟨1, by decide⟩) ∧
      readLe32 (build [sampleEntry, sampleEntry2])
          (sumEntrySize [sampleEntry, sampleEntry2] +
            (sumDirectorySize ([sampleEntry, sampleEntry2].take 1) + 42)) =
        sumEntrySize ([sampleEntry, sampleEntry2].take 1) ∧
      readLe32 (build [sampleEntry, sampleEntry2])
          (sumEntrySize [sampleEntry, sampleEntry2] +
            sumDirectorySize [sampleEntry, sampleEntry2] + 16) =
        sumEntrySize [sampleEntry, sampleEntry2]) :=
  ⟨⟨by decide, by decide, by decide⟩,
    build_offset_invariant [sampleEntry, sampleEntry2] (by decide) (by decide)
      1 (by decide)⟩

/-! ## Round trip: reading back a built archive -/

theorem mkZipEntry_drained (compress : List Nat → List Nat)
    (rawName content : List Nat) (guess : Nat) (compressed : Bool) :
    Drained (mkZipEntry compress rawName content guess compressed) := by
  cases compressed <;> rfl

theorem entrySize_le_sum (es : List ZipEntryW) (e : ZipEntryW) (he : e ∈ es) :
    entrySize e ≤ sumEntrySize es :=
  List.single_le_sum (fun x _ => Nat.zero_le x) _
    (List.mem_map_of_mem entrySize he)

theorem drop_add (l : List Nat) (off m : Nat) :
    l.drop (off + m) = (l.drop off).drop m := by
  rw [List.drop_drop]
  try congr 1
  try omega

/-- Resolving the parsed directory entries against the archive recovers
each written entry's raw name and its compressed bytes, decoded by the
stored/deflate switch. -/
theorem resolve_entries (decompress : List Nat → List Nat)
    (archive : List Nat) : ∀ (es : List ZipEntryW) (off0 : Nat)
    (tail : List Nat),
    (∀ e ∈ es, Drained e ∧ e.compressedSize < 2 ^ 32) →
    archive.drop off0 = (es.map entryBytes).flatten ++ tail →
    off0 + sumEntrySize es < 2 ^ 32 →
    (dirModels es off0).map (fun de =>
      ((ZipEntryR.fromDirectoryEntry archive de).rawName,
        (ZipEntryR.fromDirectoryEntry archive de).uncompressedContent
          decompress)) =
      es.map (fun e => (e.rawName,
        if e.method % 2 ^ 16 = 0 then e.compressedData
        else decompress e.compressedData))
  | [], off0, tail, hok, harch, h32 => rfl
  | e :: rest, off0, tail, hok, harch, h32 => by
    have hdr : Drained e := (hok e (by simp)).1
    have hcs : e.compressedSize < 2 ^ 32 := (hok e (by simp)).2
    have hoff0 : off0 % 2 ^ 32 = off0 := Nat.mod_eq_of_lt (by
      have := sumEntrySize_cons e rest
      omega)
    have hdrop : archive.drop (off0 + (30 + e.rawName.length)) =
        e.compressedData ++
          ((rest.map entryBytes).flatten ++ tail) := by
      rw [drop_add, harch]
      simp only [List.map_cons, List.flatten_cons, List.append_assoc]
      rw [show entryBytes e ++ ((rest.map entryBytes).flatten ++ tail) =
          (localHeaderBytes e ++ e.rawName) ++
            (e.compressedData ++ ((rest.map entryBytes).flatten ++ tail)) by
        simp [entryBytes, List.append_assoc]]
      rw [show (30 : Nat) + e.rawName.length =
          (localHeaderBytes e ++ e.rawName).length by
        simp [localHeaderBytes_length]]
      exact List.drop_left _ _
    have hdata : ZipEntryR.fromDirectoryEntry archive (dirEntryModel e off0) =
        { header := ZipLocalHeader.fromDirectoryEntry (dirEntryModel e off0)
          rawName := e.rawName
          rawExtraField := []
          compressedData := e.compressedData } := by
      unfold ZipEntryR.fromDirectoryEntry
      simp only [dirEntryModel, hoff0, List.length_nil, Nat.add_zero,
        Nat.mod_eq_of_lt hcs]
      rw [zipDataSlice_nat]
      rw [show off0 + 30 + e.rawName.length = off0 + (30 + e.rawName.length)
        by omega]
      rw [hdrop]
      rw [show e.compressedSize = e.compressedData.length from hdr,
        List.take_left]
    have hrec := resolve_entries decompress archive rest (off0 + entrySize e)
      tail (fun x hx => hok x (by simp [hx]))
      (by
        rw [drop_add, harch]
        simp only [List.map_cons, List.flatten_cons, List.append_assoc]
        rw [show entrySize e = (entryBytes e).length from
          (entryBytes_length e hdr).symm]
        exact List.drop_left _ _)
      (by
        have := sumEntrySize_cons e rest
        omega)
    simp only [dirModels, List.map_cons, hrec, hdata]
    all_goals simp [ZipEntryR.uncompressedContent,
      ZipLocalHeader.fromDirectoryEntry, dirEntryModel]

/-- The entries a `ZipWriter` holds after `addString`-style additions:
one entry per (name, content) pair, default options (compressed), with
the blob size as the size hint. -/
def writeEntries (compress : List Nat → List Nat)
    (pairs : List (List Nat × List Nat)) : List ZipEntryW :=
  pairs.map fun p => mkZipEntry compress p.1 p.2 p.2.length true

theorem writeEntries_drained (compress : List Nat → List Nat)
    (pairs : List (List Nat × List Nat)) :
    ∀ e ∈ writeEntries compress pairs, Drained e := by
  intro e he
  rcases List.mem_map.mp he with ⟨p, _, hp⟩
  rw [← hp]
  exact mkZipEntry_drained compress p.1 p.2 p.2.length true

theorem build_length (es : List ZipEntryW) (hd : ∀ e ∈ es, Drained e) :
    (build es).length = sumEntrySize es + sumDirectorySize es + 22 := by
  rw [build_decomp]
  simp [entryBytesFlatten_length es hd, dirConcat_length, footerBytes_length]
  omega

/-- C2: writing any finite list of (name, content) pairs with
`ZipWriter.build` and reading the produced bytes back with
`ZipReader.entries` yields the same pairs in order — raw names and decoded
contents both equal — provided the host compression and decompression
transforms are mutually inverse and the archive stays within the 16/32-bit
field bounds (name length, directory size, total entry bytes). -/
theorem zip_write_read_roundtrip (compress decompress : List Nat → List Nat)
    (hinv : ∀ x, decompress (compress x) = x)
    (pairs : List (List Nat × List Nat))
    (hname : ∀ p ∈ pairs, p.1.length < 2 ^ 16)
    (hE : sumEntrySize (writeEntries compress pairs) < 2 ^ 32)
    (hD : sumDirectorySize (writeEntries compress pairs) < 2 ^ 32) :
    readAll decompress (build (writeEntries compress pairs)) = .ok pairs := by
  have hd := writeEntries_drained compress pairs
  have hEB : (((writeEntries compress pairs).map entryBytes).flatten).length =
      sumEntrySize (writeEntries compress pairs) :=
    entryBytesFlatten_length _ hd
  have hlen : (build (writeEntries compress pairs)).length =
      sumEntrySize (writeEntries compress pairs) +
        sumDirectorySize (writeEntries compress pairs) + 22 :=
    build_length _ hd
  have hfoot : ZipFooter.read (build (writeEntries compress pairs)) =
      .ok { diskNumber := 0, diskStart := 0,
            diskEntries := (writeEntries compress pairs).length % 2 ^ 16,
            totalEntries := (writeEntries compress pairs).length % 2 ^ 16,
            directorySize := sumDirectorySize (writeEntries compress pairs),
            directoryOffset := sumEntrySize (writeEntries compress pairs),
            commentLength := 0 } := by
    unfold ZipFooter.read
    rw [footer_view_eq _ (by omega)]
    rw [build_decomp, ← List.append_assoc]
    rw [show ((((writeEntries compress pairs).map entryBytes).flatten ++
          dirConcat (writeEntries compress pairs) 0) ++
          footerBytes (writeEntries compress pairs).length
            (sumDirectorySize (writeEntries compress pairs))
            (sumEntrySize (writeEntries compress pairs))).length - 22 =
        (((writeEntries compress pairs).map entryBytes).flatten ++
          dirConcat (writeEntries compress pairs) 0).length by
      simp [footerBytes_length]
      all_goals omega]
    rw [List.drop_left, parse_footer_bytes,
      Nat.mod_eq_of_lt hD, Nat.mod_eq_of_lt hE]
  have hdirview : zipDataSlice (build (writeEntries compress pairs))
      ((sumEntrySize (writeEntries compress pairs) : Nat) : Int)
      ((sumDirectorySize (writeEntries compress pairs) : Nat) : Int) =
      dirConcat (writeEntries compress pairs) 0 := by
    rw [zipDataSlice_nat, build_decomp]
    rw [show sumEntrySize (writeEntries compress pairs) =
        (((writeEntries compress pairs).map entryBytes).flatten).length from
      hEB.symm]
    rw [List.drop_left]
    rw [show sumDirectorySize (writeEntries compress pairs) =
        (dirConcat (writeEntries compress pairs) 0).length from
      (dirConcat_length _ _).symm]
    exact List.take_left _ _
  have hdir : ZipDirectory.read (build (writeEntries compress pairs)) =
      .ok ({ diskNumber := 0, diskStart := 0,
             diskEntries := (writeEntries compress pairs).length % 2 ^ 16,
             totalEntries := (writeEntries compress pairs).length % 2 ^ 16,
             directorySize := sumDirectorySize (writeEntries compress pairs),
             directoryOffset := sumEntrySize (writeEntries compress pairs),
             commentLength := 0 },
           dirConcat (writeEntries compress pairs) 0) := by
    unfold ZipDirectory.read
    rw [hfoot, ok_bind]
    dsimp only
    rw [hdirview, except_pure_eq]
  have hnames : ∀ e ∈ writeEntries compress pairs,
      e.rawName.length < 2 ^ 16 := by
    intro e he
    rcases List.mem_map.mp he with ⟨p, hp, hpe⟩
    rw [← hpe]
    exact hname p hp
  have hcsize : ∀ e ∈ writeEntries compress pairs,
      Drained e ∧ e.compressedSize < 2 ^ 32 := by
    intro e he
    refine ⟨hd e he, ?_⟩
    have h1 := entrySize_le_sum _ e he
    simp only [entrySize] at h1
    omega
  have hopen : openArchive (build (writeEntries compress pairs)) =
      .ok ((dirModels (writeEntries compress pairs) 0).map
        (ZipEntryR.fromDirectoryEntry (build (writeEntries compress pairs)))) := by
    unfold openArchive
    rw [hdir, ok_bind]
    dsimp only
    rw [entriesFromOffset_dirConcat _ 0 hnames, ok_bind, except_pure_eq]
  have hres := resolve_entries decompress (build (writeEntries compress pairs))
    (writeEntries compress pairs) 0
    (dirConcat (writeEntries compress pairs) 0 ++
      footerBytes (writeEntries compress pairs).length
        (sumDirectorySize (writeEntries compress pairs))
        (sumEntrySize (writeEntries compress pairs)))
    hcsize
    (by rw [List.drop_zero, build_decomp])
    (by omega)
  unfold readAll
  rw [hopen, except_map_ok]
  congr 1
  rw [List.map_map]
  rw [show ((fun e : ZipEntryR => (e.rawName,
        e.uncompressedContent decompress)) ∘
        ZipEntryR.fromDirectoryEntry (build (writeEntries compress pairs))) =
      fun de => ((ZipEntryR.fromDirectoryEntry
          (build (writeEntries compress pairs)) de).rawName,
        (ZipEntryR.fromDirectoryEntry
          (build (writeEntries compress pairs)) de).uncompressedContent
          decompress) from rfl]
  rw [hres]
  rw [show (writeEntries compress pairs).map (fun e => (e.rawName,
      if e.method % 2 ^ 16 = 0 then e.compressedData
      else decompress e.compressedData)) = pairs.map (fun p => (p.1, p.2)) by
    unfold writeEntries
    rw [List.map_map]
    refine List.map_congr_left ?_
    intro p _
    simp [Function.comp, mkZipEntry, hinv p.2]]
  simp

/-! ## Bounds extracted from a successful directory entry parse -/

theorem sliceArr_ok (v : List Nat) (s l : Nat) (r : List Nat)
    (h : sliceArr v s l = .ok r) :
    s + l ≤ v.length ∧ r = (v.drop s).take l := by
  unfold sliceArr at h
  by_cases hb : s + l ≤ v.length
  · rw [if_pos hb] at h
    injection h with h1
    exact ⟨hb, h1.symm⟩
  · rw [if_neg hb] at h
    cases h

/-- A successfully parsed directory record lies entirely inside the view:
the cursor advanced by `directoryEntrySize` never passes the end. -/
theorem parse_ok_le (d : List Nat) (off : Nat) (e : ZipDirectoryEntry)
    (h : ZipDirectoryEntry.parse d off = .ok e) :
    off + e.directoryEntrySize ≤ d.length := by
  unfold ZipDirectoryEntry.parse at h
  rcases hsig : getUint32M d off with m | sig <;> rw [hsig] at h
  · rw [error_bind] at h; cases h
  rw [ok_bind] at h
  by_cases hs : sig = 0x02014b50
  case neg =>
    rw [if_pos (by simpa using hs)] at h
    rw [throw_eq, error_bind] at h
    cases h
  rw [if_neg (by simpa using hs), except_pure_eq, ok_bind] at h
  rcases h4 : getUint16M d (off + 4) with m | v4 <;> rw [h4] at h
  · rw [error_bind] at h; cases h
  rw [ok_bind] at h
  rcases h6 : getUint16M d (off + 6) with m | v6 <;> rw [h6] at h
  · rw [error_bind] at h; cases h
  rw [ok_bind] at h
  rcases h8 : getUint16M d (off + 8) with m | v8 <;> rw [h8] at h
  · rw [error_bind] at h; cases h
  rw [ok_bind] at h
  rcases h10 : getUint16M d (off + 10) with m | v10 <;> rw [h10] at h
  · rw [error_bind] at h; cases h
  rw [ok_bind] at h
  rcases h12 : getUint16M d (off + 12) with m | v12 <;> rw [h12] at h
  · rw [error_bind] at h; cases h
  rw [ok_bind] at h
  rcases h14 : getUint16M d (off + 14) with m | v14 <;> rw [h14] at h
  · rw [error_bind] at h; cases h
  rw [ok_bind] at h
  rcases h16 : getUint32M d (off + 16) with m | v16 <;> rw [h16] at h
  · rw [error_bind] at h; cases h
  rw [ok_bind] at h
  rcases h20 : getUint32M d (off + 20) with m | v20 <;> rw [h20] at h
  · rw [error_bind] at h; cases h
  rw [ok_bind] at h
  rcases h24 : getUint32M d (off + 24) with m | v24 <;> rw [h24] at h
  · rw [error_bind] at h; cases h
  rw [ok_bind] at h
  rcases h28 : getUint16M d (off + 28) with m | v28 <;> rw [h28] at h
  · rw [error_bind] at h; cases h
  rw [ok_bind] at h
  rcases h30 : getUint16M d (off + 30) with m | v30 <;> rw [h30] at h
  · rw [error_bind] at h; cases h
  rw [ok_bind] at h
  rcases h32 : getUint16M d (off + 32) with m | v32 <;> rw [h32] at h
  · rw [error_bind] at h; cases h
  rw [ok_bind] at h
  rcases h34 : getUint16M d (off + 34) with m | v34 <;> rw [h34] at h
  · rw [error_bind] at h; cases h
  rw [ok_bind] at h
  rcases h36 : getUint16M d (off + 36) with m | v36 <;> rw [h36] at h
  · rw [error_bind] at h; cases h
  rw [ok_bind] at h
  rcases h38 : getUint32M d (off + 38) with m | v38 <;> rw [h38] at h
  · rw [error_bind] at h; cases h
  rw [ok_bind] at h
  rcases h42 : getUint32M d (off + 42) with m | v42 <;> rw [h42] at h
  · rw [error_bind] at h; cases h
  rw [ok_bind] at h
  rcases hn1 : sliceArr d (off + 46) v28 with m | rawName <;> rw [hn1] at h
  · rw [error_bind] at h; cases h
  rw [ok_bind] at h
  rcases hn2 : sliceArr d (off + 46 + v28) v30 with m | rawExtra <;>
    rw [hn2] at h
  · rw [error_bind] at h; cases h
  rw [ok_bind] at h
  rcases hn3 : sliceArr d (off + 46 + v28 + v30) v32 with m | rawComment <;>
    rw [hn3] at h
  · rw [error_bind] at h; cases h
  rw [ok_bind, except_pure_eq] at h
  injection h with h1
  obtain ⟨hb1, hv1⟩ := sliceArr_ok _ _ _ _ hn1
  obtain ⟨hb2, hv2⟩ := sliceArr_ok _ _ _ _ hn2
  obtain ⟨hb3, hv3⟩ := sliceArr_ok _ _ _ _ hn3
  have hlen1 : rawName.length = min v28 (d.length - (off + 46)) := by
    rw [hv1]; simp
  have hlen2 : rawExtra.length = min v30 (d.length - (off + 46 + v28)) := by
    rw [hv2]; simp
  have hlen3 : rawComment.length =
      min v32 (d.length - (off + 46 + v28 + v30)) := by
    rw [hv3]; simp
  rw [← h1]
  simp only [ZipDirectoryEntry.directoryEntrySize]
  omega

/-- The directory loop consumes the view exactly: on success the record
sizes of the yielded entries sum to the remaining view length. -/
theorem entriesFromOffset_sum (n : Nat) : ∀ (d : List Nat) (off : Nat)
    (es : List ZipDirectoryEntry), d.length - off ≤ n → off ≤ d.length →
    entriesFromOffset d off = .ok es →
    off + (es.map ZipDirectoryEntry.directoryEntrySize).sum = d.length := by
  induction n with
  | zero =>
    intro d off es hn hle h
    rw [entriesFromOffset] at h
    rw [dif_neg (by omega)] at h
    injection h with h1
    rw [← h1]
    simp
    omega
  | succ n ih =>
    intro d off es hn hle h
    rw [entriesFromOffset] at h
    by_cases hlt : off < d.length
    · rw [dif_pos hlt] at h
      rcases hp : ZipDirectoryEntry.parse d off with m | entry <;> rw [hp] at h
      · cases h
      dsimp only at h
      have hb := parse_ok_le d off entry hp
      have hsz : 46 ≤ entry.directoryEntrySize := by
        simp only [ZipDirectoryEntry.directoryEntrySize]
        omega
      rcases hr : entriesFromOffset d (off + entry.directoryEntrySize)
          with m | rest <;> rw [hr] at h
      · cases h
      injection h with h1
      have := ih d (off + entry.directoryEntrySize) rest (by omega) (by omega)
        hr
      rw [← h1]
      simp only [List.map_cons, List.sum_cons]
      omega
    · rw [dif_neg hlt] at h
      injection h with h1
      rw [← h1]
      simp
      omega

/-- C5: on any central directory blob that the directory iterator accepts,
every yielded entry's `directoryEntrySize()` equals 46 plus its name,
extra-field and comment lengths, and advancing the cursor by that amount
consumes exactly the whole blob — the cursor lands on `directorySize`
with no record read past the end of the view (each parse was bounds
checked). -/
theorem directory_iteration_exact (d : List Nat)
    (es : List ZipDirectoryEntry) (h : entriesFromOffset d 0 = .ok es) :
    (∀ e ∈ es, e.directoryEntrySize = 46 + e.rawName.length +
      e.rawExtraField.length + e.rawComment.length) ∧
    (es.map ZipDirectoryEntry.directoryEntrySize).sum = d.length := by
  refine ⟨fun e _ => rfl, ?_⟩
  have := entriesFromOffset_sum d.length d 0 es (by omega) (by omega) h
  omega

/-- Witness for C5 on the directory produced for one concrete entry. -/
theorem directory_iteration_exact_witness :
    entriesFromOffset (dirConcat [sampleEntry] 0) 0 =
      .ok (dirModels [sampleEntry] 0) ∧
    ((∀ e ∈ dirModels [sampleEntry] 0, e.directoryEntrySize =
        46 + e.rawName.length + e.rawExtraField.length +
          e.rawComment.length) ∧
      ((dirModels [sampleEntry] 0).map
        ZipDirectoryEntry.directoryEntrySize).sum =
        (dirConcat [sampleEntry] 0).length) :=
  ⟨entriesFromOffset_dirConcat [sampleEntry] 0 (by decide),
    directory_iteration_exact (dirConcat [sampleEntry] 0)
      (dirModels [sampleEntry] 0)
      (entriesFromOffset_dirConcat [sampleEntry] 0 (by decide))⟩

/-- Witness for C2 on one concrete pair with the identity transform. -/
theorem zip_write_read_roundtrip_witness :
    readAll id (build (writeEntries id [([104, 105], [1, 2, 3])])) =
        .ok [([104, 105], [1, 2, 3])] ∧
      sumEntrySize (writeEntries id [([104, 105], [1, 2, 3])]) < 2 ^ 32 :=
  ⟨zip_write_read_roundtrip id id (fun x => rfl) [([104, 105], [1, 2, 3])]
      (by decide) (by decide) (by decide),
    by decide⟩

/-! ## C6: footer location and bad-signature rejection -/

/-- C6: opening an archive reads exactly the last 22 bytes of the source
as the footer — `ZipFooter.read` is the parse of `data.drop (length - 22)`
— and when those bytes do not begin with the little-endian signature
`0x06054B50`, the whole open fails with the bad-signature error, so no
archive state is produced. -/
theorem openArchive_bad_footer (data : List Nat) (hlen : 22 ≤ data.length)
    (hsig : readLe32 (data.drop (data.length - 22)) 0 ≠ 0x06054b50) :
    ZipFooter.read data = ZipFooter.parse (data.drop (data.length - 22)) ∧
    openArchive data = .error "Invalid ZIP footer signature" := by
  have hview : ZipFooter.read data =
      ZipFooter.parse (data.drop (data.length - 22)) := by
    unfold ZipFooter.read
    rw [footer_view_eq data hlen]
  have hpar : ZipFooter.parse (data.drop (data.length - 22)) =
      .error "Invalid ZIP footer signature" := by
    unfold ZipFooter.parse
    rw [getUint32M_of_le _ _ (by simp only [List.length_drop]; omega),
      ok_bind]
    rw [if_pos hsig, throw_eq, error_bind]
  refine ⟨hview, ?_⟩
  unfold openArchive ZipDirectory.read
  rw [hview, hpar, error_bind, error_bind]

/-- Witness for C6 on a 22-byte all-zero source. -/
theorem openArchive_bad_footer_witness :
    (22 ≤ (List.replicate 22 0 : List Nat).length ∧
      readLe32 ((List.replicate 22 0 : List Nat).drop
        ((List.replicate 22 0 : List Nat).length - 22)) 0 ≠ 0x06054b50) ∧
    (ZipFooter.read (List.replicate 22 0) =
        ZipFooter.parse ((List.replicate 22 0 : List Nat).drop
          ((List.replicate 22 0 : List Nat).length - 22)) ∧
      openArchive (List.replicate 22 0) =
        .error "Invalid ZIP footer signature") :=
  ⟨⟨by decide, by decide⟩,
    openArchive_bad_footer (List.replicate 22 0) (by decide) (by decide)⟩

/-! ## C7: `ZipSource.fromResponse` -/

/-- JS whitespace accepted by `parseInt` (ASCII subset). -/
def isJsSpace (c : Char) : Bool :=
  c == ' ' || c == '\t' || c == '\n' || c == '\r' ||
    c == '\x0b' || c == '\x0c'

def digitValDec (c : Char) : Option Nat :=
  if c.isDigit then some (c.toNat - 48) else none

def digitValHex (c : Char) : Option Nat :=
  if c.isDigit then some (c.toNat - 48)
  else if 'a' ≤ c && c ≤ 'f' then some (c.toNat - 87)
  else if 'A' ≤ c && c ≤ 'F' then some (c.toNat - 55)
  else none

/-- Longest digit prefix, `none` when no digit was consumed (JS NaN). -/
def parseDigitsAux (dv : Char → Option Nat) (base : Nat) :
    List Char → Option Nat → Option Nat
  | [], acc => acc
  | c :: cs, acc =>
    match dv c with
    | none => acc
    | some v => parseDigitsAux dv base cs (some ((acc.getD 0) * base + v))

/-- The digits after stripping an optional `0x`/`0X` prefix (radix 16) or
none (radix 10). -/
def jsParseUnsigned : List Char → Option Nat
  | '0' :: 'x' :: rest => parseDigitsAux digitValHex 16 rest none
  | '0' :: 'X' :: rest => parseDigitsAux digitValHex 16 rest none
  | cs => parseDigitsAux digitValDec 10 cs none

/-- JS `parseInt(string)` with no radix argument: strip leading
whitespace, one optional sign, auto-detect hex, parse the longest digit
prefix; `none` models NaN. -/
def jsParseInt (s : String) : Option Int :=
  match s.toList.dropWhile isJsSpace with
  | '-' :: cs => (jsParseUnsigned cs).map (fun v => -(v : Int))
  | '+' :: cs => (jsParseUnsigned cs).map (fun v => (v : Int))
  | cs => (jsParseUnsigned cs).map (fun v => (v : Int))

/-- The parts of a `fetch` `Response` that `ZipSource.fromResponse`
consults: body presence, the `Content-Length` header (absent, or present
with its string value), and the success flag (which the function never
reads). -/
structure ResponseM where
  hasBody : Bool
  contentLength : Option String
  ok : Bool
deriving Repr, DecidableEq

structure ZipSourceM where
  expectedSize : Option Int
deriving Repr, DecidableEq

/-- `ZipSource.fromResponse`: throw when the body is missing; when the
`Content-Length` header is truthy (present and non-empty), `parseInt` it,
throwing on NaN or a negative value, else propagate it as the expected
size. -/
def ZipSource.fromResponse (r : ResponseM) : Except String ZipSourceM :=
  if r.hasBody = false then .error "Response body is missing"
  else
    match r.contentLength with
    | none => .ok { expectedSize := none }
    | some s =>
      if s = "" then .ok { expectedSize := none }
      else
        match jsParseInt s with
        | none => .error "Invalid Content-Length header"
        | some n =>
          if n < 0 then .error "Content-Length header is negative"
          else .ok { expectedSize := some n }

/-- A response that indicates failure but has a body and no
`Content-Length` header. -/
def respFailed : ResponseM :=
  { hasBody := true, contentLength := none, ok := false }

/-- C7 counterexample: a failed response (`ok = false`) with a body is
accepted by `ZipSource.fromResponse` — the function never consults the
success flag, so "raises an error if the response indicates failure" is
false. -/
theorem fromResponse_ignores_failure :
    respFailed.ok = false ∧
      ZipSource.fromResponse respFailed = .ok { expectedSize := none } :=
  ⟨rfl, rfl⟩

/-- C7 (amended): `ZipSource.fromResponse` raises an error exactly when
the body is missing, or the `Content-Length` header is present and
non-empty but `parseInt` fails on it or yields a negative value; the
response's failure status is not consulted. When a valid non-negative
`Content-Length` is present its parsed value is propagated as the size
hint. -/
theorem fromResponse_spec (r : ResponseM) :
    ((∃ m, ZipSource.fromResponse r = .error m) ↔
      (r.hasBody = false ∨ ∃ s, r.contentLength = some s ∧ s ≠ "" ∧
        (jsParseInt s = none ∨ ∃ n, jsParseInt s = some n ∧ n < 0))) ∧
    (∀ s n, r.hasBody = true → r.contentLength = some s → s ≠ "" →
      jsParseInt s = some n → 0 ≤ n →
      ZipSource.fromResponse r = .ok { expectedSize := some n }) := by
  obtain ⟨body, cl, rok⟩ := r
  constructor
  · cases body with
    | false => simp [ZipSource.fromResponse]
    | true =>
      cases cl with
      | none => simp [ZipSource.fromResponse]
      | some s =>
        by_cases hs : s = ""
        · subst hs
          simp [ZipSource.fromResponse]
        · rcases hp : jsParseInt s with _ | n
          · simp [ZipSource.fromResponse, hs, hp]
          · by_cases hneg : n < 0
            · simp [ZipSource.fromResponse, hs, hp, hneg]
            · simp [ZipSource.fromResponse, hs, hp, hneg]
  · intro s n hb hcl hs hp hn
    subst hb
    simp only at hcl
    subst hcl
    simp [ZipSource.fromResponse, hs, hp, show ¬(n < 0) by omega]

/-- Witness for C7 (amended) on a response with Content-Length 12. -/
theorem fromResponse_spec_witness :
    jsParseInt "12" = some 12 ∧
      ZipSource.fromResponse
        { hasBody := true, contentLength := some "12", ok := true } =
        .ok { expectedSize := some 12 } :=
  ⟨by decide,
    (fromResponse_spec
      { hasBody := true, contentLength := some "12", ok := true }).2
      "12" 12 rfl rfl (by decide) (by decide) (by decide)⟩

/-! ## C10: directory markers with empty names -/

/-- C10: a central directory entry with an empty raw name is never
classified as a directory marker, whatever its uncompressed size: the
last-byte lookup (JS index `length - 1 = -1`, i.e. `undefined`) never
equals the `/` byte. -/
theorem isDirectory_empty_name (e : ZipDirectoryEntry)
    (h : e.rawName = []) : e.isDirectory = false := by
  simp [ZipDirectoryEntry.isDirectory, h]

/-- A directory entry with an empty name and size 0 (so only the name
lookup can reject it). -/
def emptyNameEntry : ZipDirectoryEntry :=
  { versionCreated := 0x14, versionNeeded := 0x14, flags := 0
    compressionMethod := 0, dosTime := 0, dosDate := 0, crc32 := 0
    compressedSize := 0, uncompressedSize := 0, diskNumberStart := 0
    internalFileAttributes := 0, externalFileAttributes := 0
    relativeOffset := 0, rawName := [], rawExtraField := [], rawComment := [] }

/-- Witness for C10 on a concrete empty-named entry of size 0. -/
theorem isDirectory_empty_name_witness :
    emptyNameEntry.rawName = [] ∧ emptyNameEntry.isDirectory = false :=
  ⟨rfl, isDirectory_empty_name emptyNameEntry rfl⟩

end ZipZap